import Mathlib

/-
Verification of the bcc2 front-end support code (src/helper.c) and the
recursive-descent parser (the unnamed parser translation unit) against the
repository's natural-language specification.

The C code is shallowly embedded: pointers into buffers become Nat offsets,
size_t arithmetic is Nat with an explicit `% 2 ^ 64` where wraparound can
occur, functions that call log_source_err / exit become Except-valued
functions, and the process-global lexer/token stream becomes an explicit
`List Token` threaded through the parser.
-/

set_option autoImplicit false

namespace BCC2

/-- A source buffer is a sequence of bytes. -/
abbrev Buf := List Nat

/-- size_t values wrap at 2 ^ 64. -/
def SIZE_T_MOD : Nat := 2 ^ 64

/-- SourcePosition from helper.h: a pointer into the immutable source buffer
(modelled as a Nat offset from the buffer base) plus a length. -/
structure SourcePosition where
  start : Nat
  sz : Nat
deriving Repr, DecidableEq

/-- combine_pos from helper.c: spans from the start of `pos1` to the end of
`pos2` (pointer subtraction becomes Nat subtraction). -/
def combine_pos (pos1 pos2 : SourcePosition) : SourcePosition :=
  ⟨pos1.start, (pos2.start - pos1.start) + pos2.sz⟩

/-! ### next_vn (helper.c lines 32-36)

`next_vn` reads a function-local static int64_t counter initialised to 1 and
returns the pre-increment value.  The static is modelled as explicit state:
`next_vn reg = (value returned, new value of the static)`. -/

def next_vn (reg : Int) : Int × Int := (reg, reg + 1)

/-- Initial value of the static counter `reg` in next_vn. -/
def next_vn_init : Int := 1

/-- State of the counter after `n` calls to next_vn. -/
def vn_state : Nat → Int
  | 0 => next_vn_init
  | n + 1 => (next_vn (vn_state n)).2

/-- The value returned by the `n`-th call (0-based) to next_vn. -/
def vn_at (n : Nat) : Int := (next_vn (vn_state n)).1

/-! ### The arena allocator (helper.c lines 88-132)

A MemPool reserves POOL_MAX_SZ bytes of address space; `size` is the number
of bytes handed out so far and `alloc` the committed (readable/writable)
prefix.  `mapped` records whether the reservation is still mapped (set to
false by mempool_deinit's single munmap).  All size_t arithmetic is taken
mod 2 ^ 64 exactly where the C performs it. -/

def POOL_MAX_SZ : Nat := 4294967296

def POOL_CHUNK_SZ : Nat := 4096

structure MemPool where
  size : Nat
  alloc : Nat
  mapped : Bool
deriving Repr, DecidableEq

/-- mempool_init: commits the first chunk; size 0. -/
def mempool_init : MemPool := ⟨0, POOL_CHUNK_SZ, true⟩

/-- mempool_deinit: the single bulk munmap of the whole reservation. -/
def mempool_deinit (pool : MemPool) : MemPool := ⟨pool.size, pool.alloc, false⟩

/-- size_needed's loop body: `ret = 0; while (ret < requested) ret += POOL_CHUNK_SZ;`. -/
def size_needed_go (requested ret : Nat) : Nat :=
  if ret < requested then size_needed_go requested (ret + POOL_CHUNK_SZ) else ret
termination_by requested - ret
decreasing_by
  simp only [POOL_CHUNK_SZ]
  omega

def size_needed (requested : Nat) : Nat := size_needed_go requested 0

/-- mempool_alloc (helper.c lines 119-132).  Returns the new pool state and the
offset (from the pool base) of the returned region, or `none` when the
out-of-memory check calls log_internal_err and the process exits. -/
def mempool_alloc (pool : MemPool) (amount : Nat) : Option (MemPool × Nat) :=
  if (pool.size + amount + 1) % SIZE_T_MOD ≥ pool.alloc then
    let needed := size_needed amount
    if (pool.alloc + needed) % SIZE_T_MOD > POOL_MAX_SZ then
      none
    else
      some (⟨(pool.size + amount) % SIZE_T_MOD,
             (pool.alloc + needed) % SIZE_T_MOD, pool.mapped⟩, pool.size)
  else
    some (⟨(pool.size + amount) % SIZE_T_MOD, pool.alloc, pool.mapped⟩, pool.size)

/-- Run a sequence of mempool_alloc calls, collecting (offset, amount) for
each returned region in call order. -/
def mempool_run_from (pool : MemPool) : List Nat → Option (MemPool × List (Nat × Nat))
  | [] => some (pool, [])
  | a :: rest =>
    match mempool_alloc pool a with
    | none => none
    | some (pool', off) =>
      match mempool_run_from pool' rest with
      | none => none
      | some (poolf, regs) => some (poolf, (off, a) :: regs)

def mempool_run (amounts : List Nat) : Option (MemPool × List (Nat × Nat)) :=
  mempool_run_from mempool_init amounts

/-- The invariant maintained by mempool_alloc for reasonable request sizes. -/
def pool_inv (pool : MemPool) : Prop :=
  pool.size + 1 ≤ pool.alloc ∧ pool.alloc ≤ POOL_MAX_SZ ∧ pool.mapped = true

/-- `regions_ok alloc regs`: every region fits inside the committed prefix
`[0, alloc)`, and each region ends before every later-returned region starts
(so regions are pairwise disjoint and later allocations never touch the bytes
of earlier ones). -/
def regions_ok (alloc : Nat) : List (Nat × Nat) → Prop
  | [] => True
  | (off, a) :: rest =>
    off + a ≤ alloc ∧ (∀ r ∈ rest, off + a ≤ r.1) ∧ regions_ok alloc rest

/-! ### The growable vector (helper.c lines 137-202) -/

structure Vec where
  it_sz : Nat
  items : Nat
  alloc : Nat
  data : Nat
deriving Repr, DecidableEq

/-- vector_idx (helper.c lines 188-194): NULL (`none`) when the index is out
of range, otherwise the address (`data` offset) of element `idx`. -/
def vector_idx (vec : Vec) (idx : Nat) : Option Nat :=
  if idx ≥ vec.items then none
  else some (vec.data + idx * vec.it_sz)

/-! ### Tokens and the lexer interface (lexer.h, consumed by the parser)

The token stream is modelled as a `List Token`; `lexer_peek` / `lexer_next`
yield a TOK_EOF token once the list is exhausted. -/

inductive TokKind where
  | TOK_INT | TOK_SYM | TOK_LPAREN | TOK_RPAREN | TOK_COMMA
  | TOK_ADD | TOK_SUB | TOK_MUL | TOK_DIV
  | TOK_DEQ | TOK_NEQ | TOK_GR | TOK_LE | TOK_GREQ | TOK_LEEQ
  | TOK_EQ | TOK_COLON | TOK_NEWLINE
  | TOK_LET | TOK_MUT | TOK_RETURN
  | TOK_LCURLY | TOK_RCURLY
  | TOK_U8 | TOK_U16 | TOK_U32 | TOK_U64
  | TOK_I8 | TOK_I16 | TOK_I32 | TOK_I64 | TOK_BOOL
  | TOK_EOF
deriving Repr, DecidableEq

/-- Integer-literal type tags carried by TOK_INT tokens (set by the lexer
from the literal's optional suffix; INTLIT_I64_NONE when no suffix). -/
inductive IntLitType where
  | INTLIT_U8 | INTLIT_I8 | INTLIT_U16 | INTLIT_I16
  | INTLIT_U32 | INTLIT_I32 | INTLIT_U64 | INTLIT_I64
  | INTLIT_I64_NONE
deriving Repr, DecidableEq

structure Token where
  t : TokKind
  pos : SourcePosition
  intlit_type : IntLitType
deriving Repr, DecidableEq

def eof_token : Token := ⟨.TOK_EOF, ⟨0, 0⟩, .INTLIT_I64_NONE⟩

def lexer_peek : List Token → Token
  | [] => eof_token
  | tok :: _ => tok

def lexer_next : List Token → Token × List Token
  | [] => (eof_token, [])
  | tok :: toks => (tok, toks)

/-- The primitive types (the value-equal singleton Type constants U8_const …
void_const of the AST module). -/
inductive Ty where
  | u8 | u16 | u32 | u64 | i8 | i16 | i32 | i64 | bool | void
deriving Repr, DecidableEq

inductive BinopKind where
  | BINOP_ADD | BINOP_SUB | BINOP_MUL | BINOP_DIV
  | BINOP_EQ | BINOP_NEQ | BINOP_GR | BINOP_LE | BINOP_GREQ | BINOP_LEEQ
deriving Repr, DecidableEq

/-- The untyped Expr tree built by the parser.  Each node carries its pos;
the `type` annotation field of the C struct is NULL throughout parsing and is
omitted here. -/
inductive Expr where
  | EXPR_INT (pos : SourcePosition) (val : Nat) (ty : IntLitType)
  | EXPR_VAR (pos : SourcePosition)
  | EXPR_BINOP (pos : SourcePosition) (op : BinopKind) (left right : Expr)
  | EXPR_FUNCALL (pos : SourcePosition) (name : SourcePosition) (args : List Expr)
deriving Repr

/-- The pos field shared by every Expr variant (`ret->pos`). -/
def expr_pos : Expr → SourcePosition
  | .EXPR_INT pos _ _ => pos
  | .EXPR_VAR pos => pos
  | .EXPR_BINOP pos _ _ _ => pos
  | .EXPR_FUNCALL pos _ _ => pos

/-- A diagnostic as handed to log_source_err: the printf message, the buffer
base pointer passed for line rendering (`none` models a NULL pointer), and
the offending span.  log_source_err terminates the process, so in the model
a raised diagnostic aborts the parse with this value. -/
structure SourceErr where
  msg : String
  base : Option Buf
  pos : SourcePosition
deriving Repr, DecidableEq

def msg_expected_fn_name : String := "expected function name"
def msg_expected_lparen : String := "expected '('"
def msg_expected_rparen : String := "expected ')'"
def msg_expected_param_name : String := "expected param name"
def msg_expected_type_name : String := "expected type name"
def msg_expected_var_name : String := "expected variable name"
def msg_expected_newline : String := "expected newline or ';'"
def msg_expected_eq_or_semi : String := "expected '=' or ';'"
def msg_expected_eq_or_colon : String := "expected '=' or ':'"
def msg_expected_expression : String := "expected expression"
def msg_overflow : String := "overflow on '%.*s'"
def msg_impossible_binop : String := "impossible binary op token %d"

/-- Modelling artifact: recursion fuel ran out (never raised by the theorems
below, which supply sufficient fuel). -/
def fuel_err : SourceErr := ⟨"parser fuel exhausted", none, ⟨0, 0⟩⟩

/-! ### Integer literal conversion (parser lines 30-56) -/

/-- Suffix length table intlit_pos_sz (parser lines 30-33). -/
def intlit_pos_sz : IntLitType → Nat
  | .INTLIT_U8 => 2
  | .INTLIT_I8 => 2
  | .INTLIT_U16 => 3
  | .INTLIT_I16 => 3
  | .INTLIT_U32 => 3
  | .INTLIT_I32 => 3
  | .INTLIT_U64 => 3
  | .INTLIT_I64 => 3
  | .INTLIT_I64_NONE => 0

/-- __builtin_add_overflow on a uint64_t accumulator and an int addend:
yields the wrapped uint64_t sum and true exactly when the exact sum falls
outside the uint64_t range. -/
def add_overflow_u64 (a : Nat) (b : Int) : Nat × Bool :=
  ((((a : Int) + b) % (SIZE_T_MOD : Int)).toNat,
    decide ((a : Int) + b < 0 ∨ (SIZE_T_MOD : Int) ≤ (a : Int) + b))

/-- pos_to_num's loop (parser lines 35-43): for each byte of the span the C
performs `__builtin_add_overflow(*ret, pos.start[i] - '0', ret)` and — note
the inverted test `if (!overflow) return 0;` — returns 0 as soon as an
addition does NOT overflow, returning 1 only when the loop runs off the end.
The pair returned is (C return value, final value of *ret).  The counting
loop `for (i = 0; i < sz; i++)` is translated structurally: `remaining` is
the number of iterations left, i.e. sz - i. -/
def pos_to_num_go (src : Buf) (base : Nat) :
    (remaining : Nat) → (i : Nat) → (acc : Nat) → Nat × Nat
  | 0, _, acc => (1, acc)
  | remaining + 1, i, acc =>
    match add_overflow_u64 acc ((src.getD (base + i) 0 : Int) - 48) with
    | (v, true) => pos_to_num_go src base remaining (i + 1) v
    | (v, false) => (0, v)

def pos_to_num (src : Buf) (pos : SourcePosition) (acc : Nat) : Nat × Nat :=
  pos_to_num_go src pos.start pos.sz 0 acc

/-- make_intlit_expr (parser lines 45-56): shrink the span by the suffix
length, run pos_to_num on the digit portion, and raise the overflow
diagnostic (against ast->src_base, over the restored full span) when
pos_to_num returns nonzero.  The freshly allocated Expr's val field starts at
0: arena memory comes from zero-filled anonymous mmap and is never reused. -/
def make_intlit_expr (src : Buf) (whole_pos : SourcePosition) (t : IntLitType) :
    Except SourceErr Expr :=
  let res := pos_to_num src ⟨whole_pos.start, whole_pos.sz - intlit_pos_sz t⟩ 0
  if res.1 ≠ 0 then .error ⟨msg_overflow, some src, whole_pos⟩
  else .ok (.EXPR_INT whole_pos res.2 t)

/-! ### The expression parser (parser lines 58-188)

Every parser takes `g`, the current value of the file-scope global
`src_base` (which log_source_err callers in this translation unit pass as
the line-rendering base), `src`, the AST's src_base (the actual source
buffer, used for literal digits), recursion fuel, and the remaining token
stream. -/

def expect (g : Option Buf) (t : TokKind) (err_msg : String) (toks : List Token) :
    Except SourceErr (Token × List Token) :=
  let n := lexer_next toks
  if n.1.t = t then .ok n else .error ⟨err_msg, g, n.1.pos⟩

/-- parse_binop (parser lines 102-130); the impossible-token default calls
log_internal_err (no source attribution) and exits. -/
def parse_binop (toks : List Token) : Except SourceErr (BinopKind × List Token) :=
  let n := lexer_next toks
  match n.1.t with
  | .TOK_ADD => .ok (.BINOP_ADD, n.2)
  | .TOK_SUB => .ok (.BINOP_SUB, n.2)
  | .TOK_MUL => .ok (.BINOP_MUL, n.2)
  | .TOK_DIV => .ok (.BINOP_DIV, n.2)
  | .TOK_DEQ => .ok (.BINOP_EQ, n.2)
  | .TOK_NEQ => .ok (.BINOP_NEQ, n.2)
  | .TOK_GR => .ok (.BINOP_GR, n.2)
  | .TOK_LE => .ok (.BINOP_LE, n.2)
  | .TOK_GREQ => .ok (.BINOP_GREQ, n.2)
  | .TOK_LEEQ => .ok (.BINOP_LEEQ, n.2)
  | _ => .error ⟨msg_impossible_binop, none, n.1.pos⟩

mutual

def parse_expr (g : Option Buf) (src : Buf) (fuel : Nat) (toks : List Token) :
    Except SourceErr (Expr × List Token) :=
  match fuel with
  | 0 => .error fuel_err
  | fuel + 1 => parse_comp g src fuel toks

def parse_comp (g : Option Buf) (src : Buf) (fuel : Nat) (toks : List Token) :
    Except SourceErr (Expr × List Token) :=
  match fuel with
  | 0 => .error fuel_err
  | fuel + 1 => do
    let (ret, toks) ← parse_term g src fuel toks
    parse_comp_go g src fuel ret toks

def parse_comp_go (g : Option Buf) (src : Buf) (fuel : Nat) (ret : Expr)
    (toks : List Token) : Except SourceErr (Expr × List Token) :=
  match fuel with
  | 0 => .error fuel_err
  | fuel + 1 =>
    let tok := lexer_peek toks
    if tok.t = .TOK_DEQ ∨ tok.t = .TOK_NEQ ∨ tok.t = .TOK_GR ∨
        tok.t = .TOK_LE ∨ tok.t = .TOK_GREQ ∨ tok.t = .TOK_LEEQ then do
      let (op, toks) ← parse_binop toks
      let (right, toks) ← parse_term g src fuel toks
      parse_comp_go g src fuel
        (.EXPR_BINOP (combine_pos (expr_pos ret) (expr_pos right)) op ret right) toks
    else .ok (ret, toks)

def parse_term (g : Option Buf) (src : Buf) (fuel : Nat) (toks : List Token) :
    Except SourceErr (Expr × List Token) :=
  match fuel with
  | 0 => .error fuel_err
  | fuel + 1 => do
    let (ret, toks) ← parse_factor g src fuel toks
    parse_term_go g src fuel ret toks

def parse_term_go (g : Option Buf) (src : Buf) (fuel : Nat) (ret : Expr)
    (toks : List Token) : Except SourceErr (Expr × List Token) :=
  match fuel with
  | 0 => .error fuel_err
  | fuel + 1 =>
    let tok := lexer_peek toks
    if tok.t = .TOK_ADD ∨ tok.t = .TOK_SUB then do
      let (op, toks) ← parse_binop toks
      let (right, toks) ← parse_factor g src fuel toks
      parse_term_go g src fuel
        (.EXPR_BINOP (combine_pos (expr_pos ret) (expr_pos right)) op ret right) toks
    else .ok (ret, toks)

def parse_factor (g : Option Buf) (src : Buf) (fuel : Nat) (toks : List Token) :
    Except SourceErr (Expr × List Token) :=
  match fuel with
  | 0 => .error fuel_err
  | fuel + 1 => do
    let (ret, toks) ← parse_primary g src fuel toks
    parse_factor_go g src fuel ret toks

def parse_factor_go (g : Option Buf) (src : Buf) (fuel : Nat) (ret : Expr)
    (toks : List Token) : Except SourceErr (Expr × List Token) :=
  match fuel with
  | 0 => .error fuel_err
  | fuel + 1 =>
    let tok := lexer_peek toks
    if tok.t = .TOK_MUL ∨ tok.t = .TOK_DIV then do
      let (op, toks) ← parse_binop toks
      let (right, toks) ← parse_primary g src fuel toks
      parse_factor_go g src fuel
        (.EXPR_BINOP (combine_pos (expr_pos ret) (expr_pos right)) op ret right) toks
    else .ok (ret, toks)

def parse_primary (g : Option Buf) (src : Buf) (fuel : Nat) (toks : List Token) :
    Except SourceErr (Expr × List Token) :=
  match fuel with
  | 0 => .error fuel_err
  | fuel + 1 =>
    let n := lexer_next toks
    match n.1.t with
    | .TOK_INT => do
      let e ← make_intlit_expr src n.1.pos n.1.intlit_type
      .ok (e, n.2)
    | .TOK_SYM =>
      if (lexer_peek n.2).t = .TOK_LPAREN then parse_funcall g src fuel n.1 n.2
      else .ok (.EXPR_VAR n.1.pos, n.2)
    | .TOK_LPAREN => do
      let (ret, toks) ← parse_expr g src fuel n.2
      let (_, toks) ← expect g .TOK_RPAREN msg_expected_rparen toks
      .ok (ret, toks)
    | _ => .error ⟨msg_expected_expression, g, n.1.pos⟩

def parse_funcall (g : Option Buf) (src : Buf) (fuel : Nat) (name_tok : Token)
    (toks : List Token) : Except SourceErr (Expr × List Token) :=
  match fuel with
  | 0 => .error fuel_err
  | fuel + 1 => do
    let (args, toks) ← parse_funcall_args g src fuel (lexer_next toks).2 []
    let (last_paren, toks) ← expect g .TOK_RPAREN msg_expected_rparen toks
    .ok (.EXPR_FUNCALL (combine_pos name_tok.pos last_paren.pos) name_tok.pos args, toks)

def parse_funcall_args (g : Option Buf) (src : Buf) (fuel : Nat)
    (toks : List Token) (args : List Expr) :
    Except SourceErr (List Expr × List Token) :=
  match fuel with
  | 0 => .error fuel_err
  | fuel + 1 =>
    if (lexer_peek toks).t = .TOK_RPAREN then .ok (args, toks)
    else do
      let (temp, toks) ← parse_expr g src fuel toks
      if (lexer_peek toks).t ≠ .TOK_COMMA then .ok (args ++ [temp], toks)
      else parse_funcall_args g src fuel (lexer_next toks).2 (args ++ [temp])

end

/-! ### Types, statements, blocks, functions (parser lines 190-340) -/

def parse_type (g : Option Buf) (toks : List Token) :
    Except SourceErr (Ty × List Token) :=
  let n := lexer_next toks
  match n.1.t with
  | .TOK_U8 => .ok (.u8, n.2)
  | .TOK_U16 => .ok (.u16, n.2)
  | .TOK_U32 => .ok (.u32, n.2)
  | .TOK_U64 => .ok (.u64, n.2)
  | .TOK_I8 => .ok (.i8, n.2)
  | .TOK_I16 => .ok (.i16, n.2)
  | .TOK_I32 => .ok (.i32, n.2)
  | .TOK_I64 => .ok (.i64, n.2)
  | .TOK_BOOL => .ok (.bool, n.2)
  | _ => .error ⟨msg_expected_type_name, g, n.1.pos⟩

/-- The Stmt tagged union.  `mutFlag` is the C field `mut`.  parse_return and
parse_expr_stmt never write stmt->pos; the slot is fresh zero-filled arena
memory, modelled as the zero span. -/
inductive Stmt where
  | STMT_LET (pos : SourcePosition) (name : SourcePosition) (ty : Option Ty)
      (value : Option Expr) (mutFlag : Bool)
  | STMT_RETURN (pos : SourcePosition) (ret : Option Expr)
  | STMT_EXPR (pos : SourcePosition) (e : Expr)
deriving Repr

/-- parse_let (parser lines 219-250), handling both `let` (mutFlag false) and
`mut` (mutFlag true) statements; the first token (the keyword) is consumed
unconditionally. -/
def parse_let (g : Option Buf) (src : Buf) (fuel : Nat) (mutFlag : Bool)
    (toks : List Token) : Except SourceErr (Stmt × List Token) := do
  let first := lexer_next toks
  let (var_name, toks) ← expect g .TOK_SYM msg_expected_var_name first.2
  let middle := lexer_next toks
  if middle.1.t = .TOK_EQ then do
    let (value, toks) ← parse_expr g src fuel middle.2
    let (last_tok, toks) ← expect g .TOK_NEWLINE msg_expected_newline toks
    .ok (.STMT_LET (combine_pos first.1.pos last_tok.pos) var_name.pos
          none (some value) mutFlag, toks)
  else if middle.1.t = .TOK_COLON then do
    let (ty, toks) ← parse_type g middle.2
    let equal := lexer_next toks
    if equal.1.t = .TOK_EQ then do
      let (value, toks) ← parse_expr g src fuel equal.2
      let (last_tok, toks) ← expect g .TOK_NEWLINE msg_expected_newline toks
      .ok (.STMT_LET (combine_pos first.1.pos last_tok.pos) var_name.pos
            (some ty) (some value) mutFlag, toks)
    else if equal.1.t = .TOK_NEWLINE then
      .ok (.STMT_LET (combine_pos first.1.pos equal.1.pos) var_name.pos
            (some ty) none mutFlag, equal.2)
    else .error ⟨msg_expected_eq_or_semi, g, equal.1.pos⟩
  else .error ⟨msg_expected_eq_or_colon, g, middle.1.pos⟩

def parse_expr_stmt (g : Option Buf) (src : Buf) (fuel : Nat)
    (toks : List Token) : Except SourceErr (Stmt × List Token) := do
  let (e, toks) ← parse_expr g src fuel toks
  let (_, toks) ← expect g .TOK_NEWLINE msg_expected_newline toks
  .ok (.STMT_EXPR ⟨0, 0⟩ e, toks)

def parse_return (g : Option Buf) (src : Buf) (fuel : Nat)
    (toks : List Token) : Except SourceErr (Stmt × List Token) :=
  let toks := (lexer_next toks).2
  if (lexer_peek toks).t = .TOK_NEWLINE then
    .ok (.STMT_RETURN ⟨0, 0⟩ none, (lexer_next toks).2)
  else do
    let (e, toks) ← parse_expr g src fuel toks
    let (_, toks) ← expect g .TOK_NEWLINE msg_expected_newline toks
    .ok (.STMT_RETURN ⟨0, 0⟩ (some e), toks)

structure Block where
  stmts : List Stmt
deriving Repr

/-- The statement loop of parse_block (parser lines 272-296). -/
def parse_block_go (g : Option Buf) (src : Buf) (fuel : Nat)
    (toks : List Token) (stmts : List Stmt) :
    Except SourceErr (List Stmt × List Token) :=
  match fuel with
  | 0 => .error fuel_err
  | fuel + 1 =>
    match (lexer_peek toks).t with
    | .TOK_LET => do
      let (s, toks) ← parse_let g src fuel false toks
      parse_block_go g src fuel toks (stmts ++ [s])
    | .TOK_RETURN => do
      let (s, toks) ← parse_return g src fuel toks
      parse_block_go g src fuel toks (stmts ++ [s])
    | .TOK_MUT => do
      let (s, toks) ← parse_let g src fuel true toks
      parse_block_go g src fuel toks (stmts ++ [s])
    | .TOK_RCURLY => .ok (stmts, (lexer_next toks).2)
    | _ => do
      let (s, toks) ← parse_expr_stmt g src fuel toks
      parse_block_go g src fuel toks (stmts ++ [s])

/-- parse_block: skips the '{' unconditionally, then loops until '}'. -/
def parse_block (g : Option Buf) (src : Buf) (fuel : Nat) (toks : List Token) :
    Except SourceErr (Block × List Token) := do
  let (stmts, toks) ← parse_block_go g src fuel (lexer_next toks).2 []
  .ok (⟨stmts⟩, toks)

structure Param where
  name : SourcePosition
  ty : Ty
deriving Repr, DecidableEq

/-- The C struct Function. -/
structure Func where
  name : SourcePosition
  pos : SourcePosition
  params : List Param
  ret_type : Ty
  body : Block
deriving Repr

/-- The parameter loop of parse_fn (parser lines 307-316): runs until ')' is
the lookahead; an optional comma after each parameter is skipped. -/
def parse_fn_params (g : Option Buf) (fuel : Nat) (toks : List Token)
    (params : List Param) : Except SourceErr (List Param × List Token) :=
  match fuel with
  | 0 => .error fuel_err
  | fuel + 1 =>
    if (lexer_peek toks).t = .TOK_RPAREN then .ok (params, toks)
    else do
      let (name_tok, toks) ← expect g .TOK_SYM msg_expected_param_name toks
      let (ty, toks) ← parse_type g toks
      let toks := if (lexer_peek toks).t = .TOK_COMMA then (lexer_next toks).2 else toks
      parse_fn_params g fuel toks (params ++ [⟨name_tok.pos, ty⟩])

/-- parse_fn (parser lines 298-325): name, '(', parameters, ')'; then the
return type defaults to void and is overwritten by parse_type exactly when
the lookahead after ')' is not '{'; finally the body block. -/
def parse_fn (g : Option Buf) (src : Buf) (fuel : Nat) (toks : List Token) :
    Except SourceErr (Func × List Token) := do
  let (name_tok, toks) ← expect g .TOK_SYM msg_expected_fn_name toks
  let (_, toks) ← expect g .TOK_LPAREN msg_expected_lparen toks
  let (params, toks) ← parse_fn_params g fuel toks []
  let toks := (lexer_next toks).2
  let (ret_type, toks) ←
    if (lexer_peek toks).t ≠ .TOK_LCURLY then parse_type g toks
    else (.ok (.void, toks) : Except SourceErr (Ty × List Token))
  let (body, toks) ← parse_block g src fuel toks
  .ok (⟨name_tok.pos, name_tok.pos, params, ret_type, body⟩, toks)

structure ASTRec where
  src : Buf
  fns : List Func
deriving Repr

/-- Modelled from the spec: ast_init (declared in the missing ast module)
prepares an empty AST for one compilation unit, storing the immutable source
buffer — the buffer every SourceSpan references — as the AST's src_base and
initialising the arena and the empty function vector. -/
def ast_init (src : Buf) : ASTRec := ⟨src, []⟩

/-- The function loop of parse_ast (parser lines 334-336). -/
def parse_ast_go (g : Option Buf) (src : Buf) (fuel : Nat) (toks : List Token)
    (fns : List Func) : Except SourceErr (List Func) :=
  match fuel with
  | 0 => .error fuel_err
  | fuel + 1 =>
    if (lexer_peek toks).t = .TOK_EOF then .ok fns
    else do
      let (f, toks) ← parse_fn g src fuel toks
      parse_ast_go g src fuel toks (fns ++ [f])

/-- parse_ast (parser lines 327-340).  `g` is the value of the file-scope
global `src_base` when the call starts — zero-initialised (`none`, i.e. NULL)
for the first compilation in the process.  Faithful to the source, the global
is assigned `src` only AFTER the parse loop, so every diagnostic raised
during parsing carries base `g`, not `some src`; when a diagnostic is raised
the process exits and the assignment is never executed.  The second
component of the result is the value of the global afterwards.  (The doubled
ast_init call in the source is idempotent and collapses in the model.) -/
def parse_ast (g : Option Buf) (fuel : Nat) (toks : List Token) (src : Buf) :
    Except SourceErr ASTRec × Option Buf :=
  let ret := ast_init src
  match parse_ast_go g src fuel toks ret.fns with
  | .error e => (.error e, g)
  | .ok fns => (.ok ⟨ret.src, fns⟩, some src)

/-! ### Concrete tokens and buffers used in the claim statements -/

/-- A TOK_SYM token with the given span. -/
def sym_tok (p : SourcePosition) : Token := ⟨.TOK_SYM, p, .INTLIT_I64_NONE⟩

/-- A token of the given kind whose span is irrelevant to the claims. -/
def mk_tok (k : TokKind) : Token := ⟨k, ⟨0, 0⟩, .INTLIT_I64_NONE⟩

/-- The bytes of the source text `300u8`. -/
def src_300u8 : Buf := [51, 48, 48, 117, 56]

/-- The bytes of the source text `12`. -/
def src_12 : Buf := [49, 50]

/-- The bytes of the source text `(`. -/
def lparen_src : Buf := [40]

/-! ### Operator chains (claim C4)

A chain encodes an arbitrary expression over variable operands built from
the parser's three binary-operator levels: a comparison chain is an additive
chain followed by any number of (comparison operator, additive chain) pairs,
an additive chain is a multiplicative chain followed by (additive operator,
multiplicative chain) pairs, and a multiplicative chain is a variable
followed by (multiplicative operator, variable) pairs — every mixed
operator/variable sequence is of this shape.  The expected parse result of a
chain is the nested left fold below: multiplicative chains form complete
subtrees of additive chains, which form complete subtrees of comparison
chains (precedence), and every fold nests to the left (left
associativity). -/

abbrev MOps := List (TokKind × SourcePosition)
abbrev MChain := SourcePosition × MOps
abbrev TOps := List (TokKind × MChain)
abbrev TChain := MChain × TOps
abbrev COps := List (TokKind × TChain)
abbrev CChain := TChain × COps

def mul_level : TokKind → Bool
  | .TOK_MUL | .TOK_DIV => true
  | _ => false

def add_level : TokKind → Bool
  | .TOK_ADD | .TOK_SUB => true
  | _ => false

def cmp_level : TokKind → Bool
  | .TOK_DEQ | .TOK_NEQ | .TOK_GR | .TOK_LE | .TOK_GREQ | .TOK_LEEQ => true
  | _ => false

/-- True when the token kind ends every operator chain: it is neither a
binary operator (which would extend some chain) nor '(' (which would turn
the preceding variable into a call). -/
def chain_stop : TokKind → Bool
  | .TOK_LPAREN | .TOK_MUL | .TOK_DIV | .TOK_ADD | .TOK_SUB
  | .TOK_DEQ | .TOK_NEQ | .TOK_GR | .TOK_LE | .TOK_GREQ | .TOK_LEEQ => false
  | _ => true

/-- The operator-token-to-BinopKind mapping realised by parse_binop
(statement-side helper; the default arm is unreachable under the chain side
conditions). -/
def binop_map : TokKind → BinopKind
  | .TOK_SUB => .BINOP_SUB
  | .TOK_MUL => .BINOP_MUL
  | .TOK_DIV => .BINOP_DIV
  | .TOK_DEQ => .BINOP_EQ
  | .TOK_NEQ => .BINOP_NEQ
  | .TOK_GR => .BINOP_GR
  | .TOK_LE => .BINOP_LE
  | .TOK_GREQ => .BINOP_GREQ
  | .TOK_LEEQ => .BINOP_LEEQ
  | _ => .BINOP_ADD

def mops_toks : MOps → List Token
  | [] => []
  | (k, p) :: rest => mk_tok k :: sym_tok p :: mops_toks rest

def mchain_toks : MChain → List Token
  | (p0, ops) => sym_tok p0 :: mops_toks ops

def tops_toks : TOps → List Token
  | [] => []
  | (k, mc) :: rest => mk_tok k :: (mchain_toks mc ++ tops_toks rest)

def tchain_toks : TChain → List Token
  | (mc0, tops) => mchain_toks mc0 ++ tops_toks tops

def cops_toks : COps → List Token
  | [] => []
  | (k, tc) :: rest => mk_tok k :: (tchain_toks tc ++ cops_toks rest)

def cchain_toks : CChain → List Token
  | (tc0, cops) => tchain_toks tc0 ++ cops_toks cops

def mops_fold (ret : Expr) : MOps → Expr
  | [] => ret
  | (k, p) :: rest =>
    mops_fold (.EXPR_BINOP (combine_pos (expr_pos ret) p) (binop_map k)
      ret (.EXPR_VAR p)) rest

def mchain_expr : MChain → Expr
  | (p0, ops) => mops_fold (.EXPR_VAR p0) ops

def tops_fold (ret : Expr) : TOps → Expr
  | [] => ret
  | (k, mc) :: rest =>
    tops_fold (.EXPR_BINOP (combine_pos (expr_pos ret) (expr_pos (mchain_expr mc)))
      (binop_map k) ret (mchain_expr mc)) rest

def tchain_expr : TChain → Expr
  | (mc0, tops) => tops_fold (mchain_expr mc0) tops

def cops_fold (ret : Expr) : COps → Expr
  | [] => ret
  | (k, tc) :: rest =>
    cops_fold (.EXPR_BINOP (combine_pos (expr_pos ret) (expr_pos (tchain_expr tc)))
      (binop_map k) ret (tchain_expr tc)) rest

def cchain_expr : CChain → Expr
  | (tc0, cops) => cops_fold (tchain_expr tc0) cops

abbrev mops_ok (ops : MOps) : Prop := ∀ o ∈ ops, mul_level o.1 = true

abbrev mchain_ok (c : MChain) : Prop := mops_ok c.2

abbrev tops_ok (ops : TOps) : Prop := ∀ o ∈ ops, add_level o.1 = true ∧ mchain_ok o.2

abbrev tchain_ok (c : TChain) : Prop := mchain_ok c.1 ∧ tops_ok c.2

abbrev cops_ok (ops : COps) : Prop := ∀ o ∈ ops, cmp_level o.1 = true ∧ tchain_ok o.2

abbrev cchain_ok (c : CChain) : Prop := tchain_ok c.1 ∧ cops_ok c.2

/-- Fuel needed by the parser on a chain, levels counted conservatively. -/
def tops_size : TOps → Nat
  | [] => 0
  | (_, mc) :: rest => mc.2.length + 2 + tops_size rest

def tchain_size : TChain → Nat
  | (mc0, tops) => mc0.2.length + 2 + tops_size tops

def cops_size : COps → Nat
  | [] => 0
  | (_, tc) :: rest => tchain_size tc + 1 + cops_size rest

def cchain_size : CChain → Nat
  | (tc0, cops) => tchain_size tc0 + 1 + cops_size cops

/-! ### Supporting lemmas -/

theorem vn_state_eq (n : Nat) : vn_state n = 1 + n := by
  induction n with
  | zero => rfl
  | succ n ih => simp [vn_state, next_vn, ih]; ring

theorem size_needed_go_ge (requested ret : Nat) :
    requested ≤ size_needed_go requested ret := by
  unfold size_needed_go
  split
  · exact size_needed_go_ge requested (ret + POOL_CHUNK_SZ)
  · omega
termination_by requested - ret
decreasing_by
  simp only [POOL_CHUNK_SZ]
  omega

theorem size_needed_go_le (requested ret : Nat)
    (h : ret ≤ requested + POOL_CHUNK_SZ) :
    size_needed_go requested ret ≤ requested + POOL_CHUNK_SZ := by
  unfold size_needed_go
  split
  · exact size_needed_go_le requested (ret + POOL_CHUNK_SZ) (by
      simp only [POOL_CHUNK_SZ] at *
      omega)
  · omega
termination_by requested - ret
decreasing_by
  simp only [POOL_CHUNK_SZ]
  omega

theorem size_needed_ge (requested : Nat) : requested ≤ size_needed requested :=
  size_needed_go_ge requested 0

theorem size_needed_le (requested : Nat) :
    size_needed requested ≤ requested + POOL_CHUNK_SZ :=
  size_needed_go_le requested 0 (by omega)

theorem pool_inv_init : pool_inv mempool_init := by
  refine ⟨by simp [mempool_init, POOL_CHUNK_SZ], by
    simp [mempool_init, POOL_CHUNK_SZ, POOL_MAX_SZ], rfl⟩

/-- One mempool_alloc step, for requests up to the pool cap: the pool state
only grows, the returned offset is the old size, and the region fits in the
newly committed prefix. -/
theorem mempool_alloc_step (pool : MemPool) (amount : Nat) (pool' : MemPool)
    (off : Nat) (hinv : pool_inv pool) (hamt : amount ≤ POOL_MAX_SZ)
    (heq : mempool_alloc pool amount = some (pool', off)) :
    pool'.size = pool.size + amount ∧ pool.alloc ≤ pool'.alloc ∧
      pool'.mapped = pool.mapped ∧ off = pool.size ∧
      off + amount ≤ pool'.alloc ∧ pool_inv pool' := by
  obtain ⟨hsz, hal, hm⟩ := hinv
  have hneed1 := size_needed_ge amount
  have hneed2 := size_needed_le amount
  simp only [POOL_MAX_SZ] at hal hamt
  simp only [POOL_CHUNK_SZ] at hneed2
  have hmod1 : (pool.size + amount + 1) % SIZE_T_MOD = pool.size + amount + 1 := by
    apply Nat.mod_eq_of_lt
    simp only [SIZE_T_MOD]
    omega
  have hmod2 : (pool.size + amount) % SIZE_T_MOD = pool.size + amount := by
    apply Nat.mod_eq_of_lt
    simp only [SIZE_T_MOD]
    omega
  have hmod3 : (pool.alloc + size_needed amount) % SIZE_T_MOD
      = pool.alloc + size_needed amount := by
    apply Nat.mod_eq_of_lt
    simp only [SIZE_T_MOD]
    omega
  simp only [mempool_alloc, hmod1, hmod2, hmod3] at heq
  split at heq
  · split at heq
    · exact absurd heq (by simp)
    · rename_i hgrow hoom
      simp only [gt_iff_lt, not_lt, POOL_MAX_SZ] at hoom
      simp only [Option.some.injEq, Prod.mk.injEq] at heq
      obtain ⟨h1, h2⟩ := heq
      subst h1
      subst h2
      refine ⟨rfl, by dsimp only; omega, rfl, rfl, by dsimp only; omega,
        by dsimp only; omega, by dsimp only [POOL_MAX_SZ]; omega, hm⟩
  · rename_i hgrow
    simp only [ge_iff_le, not_le] at hgrow
    simp only [Option.some.injEq, Prod.mk.injEq] at heq
    obtain ⟨h1, h2⟩ := heq
    subst h1
    subst h2
    refine ⟨rfl, by dsimp only; omega, rfl, rfl, by dsimp only; omega,
      by dsimp only; omega, by dsimp only [POOL_MAX_SZ]; omega, hm⟩

/-- Running a sequence of in-cap allocations from any pool satisfying the
invariant: the final pool still satisfies it, size and committed prefix only
grow, and the returned regions are consecutive in call order. -/
theorem mempool_run_from_ok (amounts : List Nat) (pool poolf : MemPool)
    (regs : List (Nat × Nat)) (hinv : pool_inv pool)
    (hamt : ∀ a ∈ amounts, a ≤ POOL_MAX_SZ)
    (heq : mempool_run_from pool amounts = some (poolf, regs)) :
    pool_inv poolf ∧ pool.size ≤ poolf.size ∧ pool.alloc ≤ poolf.alloc ∧
      regions_ok poolf.alloc regs ∧ ∀ r ∈ regs, pool.size ≤ r.1 := by
  induction amounts generalizing pool regs with
  | nil =>
    simp only [mempool_run_from, Option.some.injEq, Prod.mk.injEq] at heq
    obtain ⟨h1, h2⟩ := heq
    subst h1
    subst h2
    exact ⟨hinv, le_refl _, le_refl _, trivial, by simp⟩
  | cons a rest ih =>
    simp only [mempool_run_from] at heq
    cases halloc : mempool_alloc pool a with
    | none => simp [halloc] at heq
    | some res =>
      obtain ⟨pool1, off⟩ := res
      simp only [halloc] at heq
      cases hrun : mempool_run_from pool1 rest with
      | none => simp [hrun] at heq
      | some res2 =>
        obtain ⟨poolf', regs'⟩ := res2
        simp only [hrun, Option.some.injEq, Prod.mk.injEq] at heq
        obtain ⟨hpf, hregs⟩ := heq
        subst hpf
        subst hregs
        obtain ⟨hs1, ha1, hmp1, hoff, hfit, hinv1⟩ :=
          mempool_alloc_step pool a pool1 off hinv (hamt a (by simp)) halloc
        obtain ⟨hinvf, hsf, haf, hrok, hstart⟩ :=
          ih pool1 regs' hinv1 (fun x hx => hamt x (by simp [hx])) hrun
        refine ⟨hinvf, by omega, by omega, ⟨by omega, ?_, hrok⟩, ?_⟩
        · intro r hr
          have := hstart r hr
          omega
        · intro r hr
          simp only [List.mem_cons] at hr
          rcases hr with h | h
          · subst h
            omega
          · have := hstart r h
            omega

/-- pos_to_num_go reads only the bytes at offsets base + i … base + i +
remaining - 1: buffers agreeing there produce identical results. -/
theorem pos_to_num_go_congr (src srcB : Buf) (base : Nat) :
    ∀ remaining i acc,
      (∀ j, i ≤ j → j < i + remaining →
          src.getD (base + j) 0 = srcB.getD (base + j) 0) →
      pos_to_num_go src base remaining i acc
        = pos_to_num_go srcB base remaining i acc := by
  intro remaining
  induction remaining with
  | zero => intro i acc h; rfl
  | succ rem ih =>
    intro i acc h
    simp only [pos_to_num_go]
    rw [h i (le_refl i) (by omega)]
    cases hstep : add_overflow_u64 acc ((srcB.getD (base + i) 0 : Int) - 48) with
    | mk v ov =>
      cases ov
      · rfl
      · exact ih (i + 1) v (fun j hj1 hj2 => h j (by omega) (by omega))

theorem chain_stop_flags (k : TokKind) (h : chain_stop k = true) :
    mul_level k = false ∧ add_level k = false ∧ cmp_level k = false ∧
      k ≠ .TOK_LPAREN := by
  cases k <;> simp_all [chain_stop, mul_level, add_level, cmp_level]

theorem add_level_flags (k : TokKind) (h : add_level k = true) :
    mul_level k = false ∧ k ≠ .TOK_LPAREN := by
  cases k <;> simp_all [add_level, mul_level]

theorem cmp_level_flags (k : TokKind) (h : cmp_level k = true) :
    mul_level k = false ∧ add_level k = false ∧ k ≠ .TOK_LPAREN := by
  cases k <;> simp_all [cmp_level, mul_level, add_level]

theorem mops_head_not_lparen (ops : MOps) (tail : List Token) (hok : mops_ok ops)
    (hlp : (lexer_peek tail).t ≠ .TOK_LPAREN) :
    (lexer_peek (mops_toks ops ++ tail)).t ≠ .TOK_LPAREN := by
  cases ops with
  | nil => simpa [mops_toks] using hlp
  | cons o rest =>
    obtain ⟨k, p⟩ := o
    have hk : mul_level k = true := hok (k, p) (by simp)
    have hne : k ≠ .TOK_LPAREN := by cases k <;> simp_all [mul_level]
    simpa [mops_toks, List.cons_append, lexer_peek, mk_tok] using hne

theorem tops_head_flags (tops : TOps) (tail : List Token) (hok : tops_ok tops)
    (hmul : mul_level (lexer_peek tail).t = false)
    (hlp : (lexer_peek tail).t ≠ .TOK_LPAREN) :
    mul_level (lexer_peek (tops_toks tops ++ tail)).t = false ∧
      (lexer_peek (tops_toks tops ++ tail)).t ≠ .TOK_LPAREN := by
  cases tops with
  | nil => exact ⟨by simpa [tops_toks] using hmul, by simpa [tops_toks] using hlp⟩
  | cons o rest =>
    obtain ⟨k, mc⟩ := o
    have hk : add_level k = true := (hok (k, mc) (by simp)).1
    obtain ⟨h1, h2⟩ := add_level_flags k hk
    exact ⟨by simpa [tops_toks, List.cons_append, lexer_peek, mk_tok] using h1,
      by simpa [tops_toks, List.cons_append, lexer_peek, mk_tok] using h2⟩

theorem cops_head_flags (cops : COps) (tail : List Token) (hok : cops_ok cops)
    (hstop : chain_stop (lexer_peek tail).t = true) :
    add_level (lexer_peek (cops_toks cops ++ tail)).t = false ∧
      mul_level (lexer_peek (cops_toks cops ++ tail)).t = false ∧
      (lexer_peek (cops_toks cops ++ tail)).t ≠ .TOK_LPAREN := by
  cases cops with
  | nil =>
    obtain ⟨h1, h2, h3, h4⟩ := chain_stop_flags _ hstop
    exact ⟨by simpa [cops_toks] using h2, by simpa [cops_toks] using h1,
      by simpa [cops_toks] using h4⟩
  | cons o rest =>
    obtain ⟨k, tc⟩ := o
    have hk : cmp_level k = true := (hok (k, tc) (by simp)).1
    obtain ⟨h1, h2, h3⟩ := cmp_level_flags k hk
    exact ⟨by simpa [cops_toks, List.cons_append, lexer_peek, mk_tok] using h2,
      by simpa [cops_toks, List.cons_append, lexer_peek, mk_tok] using h1,
      by simpa [cops_toks, List.cons_append, lexer_peek, mk_tok] using h3⟩

/-- parse_primary on a variable token whose lookahead is not '(' yields an
EXPR_VAR and consumes only the variable token. -/
theorem parse_primary_var (g : Option Buf) (src : Buf) (f : Nat)
    (p : SourcePosition) (Z : List Token)
    (hlp : (lexer_peek Z).t ≠ .TOK_LPAREN) :
    parse_primary g src (f + 1) (sym_tok p :: Z) = .ok (.EXPR_VAR p, Z) := by
  cases Z with
  | nil => rfl
  | cons z zs =>
    obtain ⟨zt, zp, zi⟩ := z
    cases zt
    all_goals first
      | rfl
      | exact absurd rfl hlp

/-- The parse_factor while loop exits immediately when the lookahead is not
a multiplicative operator. -/
theorem parse_factor_go_stop (g : Option Buf) (src : Buf) (f : Nat) (ret : Expr)
    (tail : List Token) (hstop : mul_level (lexer_peek tail).t = false) :
    parse_factor_go g src (f + 1) ret tail = .ok (ret, tail) := by
  cases tail with
  | nil => rfl
  | cons z zs =>
    obtain ⟨zt, zp, zi⟩ := z
    cases zt
    all_goals first
      | rfl
      | simp_all [mul_level, lexer_peek]

/-- The parse_term while loop exits immediately when the lookahead is not an
additive operator. -/
theorem parse_term_go_stop (g : Option Buf) (src : Buf) (f : Nat) (ret : Expr)
    (tail : List Token) (hstop : add_level (lexer_peek tail).t = false) :
    parse_term_go g src (f + 1) ret tail = .ok (ret, tail) := by
  cases tail with
  | nil => rfl
  | cons z zs =>
    obtain ⟨zt, zp, zi⟩ := z
    cases zt
    all_goals first
      | rfl
      | simp_all [add_level, lexer_peek]

/-- The parse_comp while loop exits immediately when the lookahead is not a
comparison operator. -/
theorem parse_comp_go_stop (g : Option Buf) (src : Buf) (f : Nat) (ret : Expr)
    (tail : List Token) (hstop : cmp_level (lexer_peek tail).t = false) :
    parse_comp_go g src (f + 1) ret tail = .ok (ret, tail) := by
  cases tail with
  | nil => rfl
  | cons z zs =>
    obtain ⟨zt, zp, zi⟩ := z
    cases zt
    all_goals first
      | rfl
      | simp_all [cmp_level, lexer_peek]

/-- One iteration of the parse_factor while loop on a multiplicative
operator token. -/
theorem parse_factor_go_step (g : Option Buf) (src : Buf) (f : Nat) (ret : Expr)
    (k : TokKind) (W : List Token) (hk : mul_level k = true) :
    parse_factor_go g src (f + 1) ret (mk_tok k :: W)
      = (do
          let (right, toks) ← parse_primary g src f W
          parse_factor_go g src f
            (.EXPR_BINOP (combine_pos (expr_pos ret) (expr_pos right))
              (binop_map k) ret right) toks) := by
  cases k
  all_goals first
    | rfl
    | simp_all [mul_level]

/-- One iteration of the parse_term while loop on an additive operator
token. -/
theorem parse_term_go_step (g : Option Buf) (src : Buf) (f : Nat) (ret : Expr)
    (k : TokKind) (W : List Token) (hk : add_level k = true) :
    parse_term_go g src (f + 1) ret (mk_tok k :: W)
      = (do
          let (right, toks) ← parse_factor g src f W
          parse_term_go g src f
            (.EXPR_BINOP (combine_pos (expr_pos ret) (expr_pos right))
              (binop_map k) ret right) toks) := by
  cases k
  all_goals first
    | rfl
    | simp_all [add_level]

/-- One iteration of the parse_comp while loop on a comparison operator
token. -/
theorem parse_comp_go_step (g : Option Buf) (src : Buf) (f : Nat) (ret : Expr)
    (k : TokKind) (W : List Token) (hk : cmp_level k = true) :
    parse_comp_go g src (f + 1) ret (mk_tok k :: W)
      = (do
          let (right, toks) ← parse_term g src f W
          parse_comp_go g src f
            (.EXPR_BINOP (combine_pos (expr_pos ret) (expr_pos right))
              (binop_map k) ret right) toks) := by
  cases k
  all_goals first
    | rfl
    | simp_all [cmp_level]

/-- The parse_factor while loop left-folds any multiplicative operator
chain. -/
theorem parse_factor_go_chain (g : Option Buf) (src : Buf) :
    ∀ (ops : MOps) (fuel : Nat) (ret : Expr) (tail : List Token),
      mops_ok ops → ops.length < fuel →
      mul_level (lexer_peek tail).t = false →
      (lexer_peek tail).t ≠ .TOK_LPAREN →
      parse_factor_go g src fuel ret (mops_toks ops ++ tail)
        = .ok (mops_fold ret ops, tail) := by
  intro ops
  induction ops with
  | nil =>
    intro fuel ret tail hok hfuel hstop hlp
    obtain ⟨f, rfl⟩ : ∃ f, fuel = f + 1 := ⟨fuel - 1, by omega⟩
    simp only [mops_toks, List.nil_append, mops_fold]
    exact parse_factor_go_stop g src f ret tail hstop
  | cons o rest ih =>
    obtain ⟨k, p⟩ := o
    intro fuel ret tail hok hfuel hstop hlp
    simp only [List.length_cons] at hfuel
    have hk : mul_level k = true := hok (k, p) (by simp)
    have hrest : mops_ok rest := fun o ho => hok o (List.mem_cons_of_mem _ ho)
    have hpeek : (lexer_peek (mops_toks rest ++ tail)).t ≠ .TOK_LPAREN :=
      mops_head_not_lparen rest tail hrest hlp
    obtain ⟨f, rfl⟩ : ∃ f, fuel = f + 1 := ⟨fuel - 1, by omega⟩
    obtain ⟨f2, rfl⟩ : ∃ f2, f = f2 + 1 := ⟨f - 1, by omega⟩
    simp only [mops_toks, List.cons_append]
    rw [parse_factor_go_step g src (f2 + 1) ret k _ hk,
      parse_primary_var g src f2 p _ hpeek]
    exact ih (f2 + 1)
      (.EXPR_BINOP (combine_pos (expr_pos ret) p) (binop_map k) ret (.EXPR_VAR p))
      tail hrest (by omega) hstop hlp

/-- parse_factor on a whole multiplicative chain yields its left-folded
expression. -/
theorem parse_factor_mchain (g : Option Buf) (src : Buf) (mc : MChain)
    (fuel : Nat) (tail : List Token) (hok : mchain_ok mc)
    (hfuel : mc.2.length + 1 < fuel)
    (hmul : mul_level (lexer_peek tail).t = false)
    (hlp : (lexer_peek tail).t ≠ .TOK_LPAREN) :
    parse_factor g src fuel (mchain_toks mc ++ tail) = .ok (mchain_expr mc, tail) := by
  obtain ⟨p0, ops⟩ := mc
  have hfuel' : ops.length + 1 < fuel := hfuel
  have hok' : mops_ok ops := hok
  obtain ⟨f, rfl⟩ : ∃ f, fuel = f + 1 := ⟨fuel - 1, by omega⟩
  obtain ⟨f2, rfl⟩ : ∃ f2, f = f2 + 1 := ⟨f - 1, by omega⟩
  have hpeek : (lexer_peek (mops_toks ops ++ tail)).t ≠ .TOK_LPAREN :=
    mops_head_not_lparen ops tail hok' hlp
  have h1 : parse_factor g src (f2 + 1 + 1) (sym_tok p0 :: (mops_toks ops ++ tail))
      = (do
          let (ret, toks) ← parse_primary g src (f2 + 1)
            (sym_tok p0 :: (mops_toks ops ++ tail))
          parse_factor_go g src (f2 + 1) ret toks) := rfl
  simp only [mchain_toks, List.cons_append]
  rw [h1, parse_primary_var g src f2 p0 _ hpeek]
  exact parse_factor_go_chain g src ops (f2 + 1) (.EXPR_VAR p0) tail hok'
    (by omega) hmul hlp

/-- The parse_term while loop left-folds any additive chain whose operands
are multiplicative chains. -/
theorem parse_term_go_chain (g : Option Buf) (src : Buf) :
    ∀ (tops : TOps) (fuel : Nat) (ret : Expr) (tail : List Token),
      tops_ok tops → tops_size tops < fuel →
      add_level (lexer_peek tail).t = false →
      mul_level (lexer_peek tail).t = false →
      (lexer_peek tail).t ≠ .TOK_LPAREN →
      parse_term_go g src fuel ret (tops_toks tops ++ tail)
        = .ok (tops_fold ret tops, tail) := by
  intro tops
  induction tops with
  | nil =>
    intro fuel ret tail hok hfuel hadd hmul hlp
    obtain ⟨f, rfl⟩ : ∃ f, fuel = f + 1 := ⟨fuel - 1, by omega⟩
    simp only [tops_toks, List.nil_append, tops_fold]
    exact parse_term_go_stop g src f ret tail hadd
  | cons o rest ih =>
    obtain ⟨k, mc⟩ := o
    intro fuel ret tail hok hfuel hadd hmul hlp
    have hk : add_level k = true := (hok (k, mc) (by simp)).1
    have hmc : mchain_ok mc := (hok (k, mc) (by simp)).2
    have hrest : tops_ok rest := fun o ho => hok o (List.mem_cons_of_mem _ ho)
    have hfuel' : mc.2.length + 2 + tops_size rest < fuel := by
      simpa [tops_size] using hfuel
    obtain ⟨hf1, hf2⟩ := tops_head_flags rest tail hrest hmul hlp
    obtain ⟨f, rfl⟩ : ∃ f, fuel = f + 1 := ⟨fuel - 1, by omega⟩
    simp only [tops_toks, List.cons_append, List.append_assoc]
    rw [parse_term_go_step g src f ret k _ hk,
      parse_factor_mchain g src mc f (tops_toks rest ++ tail) hmc (by omega) hf1 hf2]
    exact ih f
      (.EXPR_BINOP (combine_pos (expr_pos ret) (expr_pos (mchain_expr mc)))
        (binop_map k) ret (mchain_expr mc))
      tail hrest (by omega) hadd hmul hlp

/-- parse_term on a whole additive chain yields its left-folded expression. -/
theorem parse_term_tchain (g : Option Buf) (src : Buf) (tc : TChain)
    (fuel : Nat) (tail : List Token) (hok : tchain_ok tc)
    (hfuel : tchain_size tc < fuel)
    (hadd : add_level (lexer_peek tail).t = false)
    (hmul : mul_level (lexer_peek tail).t = false)
    (hlp : (lexer_peek tail).t ≠ .TOK_LPAREN) :
    parse_term g src fuel (tchain_toks tc ++ tail) = .ok (tchain_expr tc, tail) := by
  obtain ⟨mc0, tops⟩ := tc
  have hok1 : mchain_ok mc0 := hok.1
  have hok2 : tops_ok tops := hok.2
  have hfuel' : mc0.2.length + 2 + tops_size tops < fuel := by
    simpa [tchain_size] using hfuel
  obtain ⟨f, rfl⟩ : ∃ f, fuel = f + 1 := ⟨fuel - 1, by omega⟩
  obtain ⟨hf1, hf2⟩ := tops_head_flags tops tail hok2 hmul hlp
  have h1 : parse_term g src (f + 1) (mchain_toks mc0 ++ (tops_toks tops ++ tail))
      = (do
          let (ret, toks) ← parse_factor g src f
            (mchain_toks mc0 ++ (tops_toks tops ++ tail))
          parse_term_go g src f ret toks) := rfl
  simp only [tchain_toks, List.append_assoc]
  rw [h1, parse_factor_mchain g src mc0 f (tops_toks tops ++ tail) hok1
    (by omega) hf1 hf2]
  exact parse_term_go_chain g src tops f (mchain_expr mc0) tail hok2
    (by omega) hadd hmul hlp

/-- The parse_comp while loop left-folds any comparison chain whose operands
are additive chains. -/
theorem parse_comp_go_chain (g : Option Buf) (src : Buf) :
    ∀ (cops : COps) (fuel : Nat) (ret : Expr) (tail : List Token),
      cops_ok cops → cops_size cops < fuel →
      chain_stop (lexer_peek tail).t = true →
      parse_comp_go g src fuel ret (cops_toks cops ++ tail)
        = .ok (cops_fold ret cops, tail) := by
  intro cops
  induction cops with
  | nil =>
    intro fuel ret tail hok hfuel hstop
    obtain ⟨f, rfl⟩ : ∃ f, fuel = f + 1 := ⟨fuel - 1, by omega⟩
    obtain ⟨hm, ha, hc, hp⟩ := chain_stop_flags _ hstop
    simp only [cops_toks, List.nil_append, cops_fold]
    exact parse_comp_go_stop g src f ret tail hc
  | cons o rest ih =>
    obtain ⟨k, tc⟩ := o
    intro fuel ret tail hok hfuel hstop
    have hk : cmp_level k = true := (hok (k, tc) (by simp)).1
    have htc : tchain_ok tc := (hok (k, tc) (by simp)).2
    have hrest : cops_ok rest := fun o ho => hok o (List.mem_cons_of_mem _ ho)
    have hfuel' : tchain_size tc + 1 + cops_size rest < fuel := by
      simpa [cops_size] using hfuel
    obtain ⟨ha, hm, hp⟩ := cops_head_flags rest tail hrest hstop
    obtain ⟨f, rfl⟩ : ∃ f, fuel = f + 1 := ⟨fuel - 1, by omega⟩
    simp only [cops_toks, List.cons_append, List.append_assoc]
    rw [parse_comp_go_step g src f ret k _ hk,
      parse_term_tchain g src tc f (cops_toks rest ++ tail) htc (by omega) ha hm hp]
    exact ih f
      (.EXPR_BINOP (combine_pos (expr_pos ret) (expr_pos (tchain_expr tc)))
        (binop_map k) ret (tchain_expr tc))
      tail hrest (by omega) hstop

/-- parse_comp on a whole comparison chain yields its left-folded
expression. -/
theorem parse_comp_cchain (g : Option Buf) (src : Buf) (c : CChain)
    (fuel : Nat) (tail : List Token) (hok : cchain_ok c)
    (hfuel : cchain_size c < fuel)
    (hstop : chain_stop (lexer_peek tail).t = true) :
    parse_comp g src fuel (cchain_toks c ++ tail) = .ok (cchain_expr c, tail) := by
  obtain ⟨tc0, cops⟩ := c
  have hok1 : tchain_ok tc0 := hok.1
  have hok2 : cops_ok cops := hok.2
  have hfuel' : tchain_size tc0 + 1 + cops_size cops < fuel := by
    simpa [cchain_size] using hfuel
  obtain ⟨f, rfl⟩ : ∃ f, fuel = f + 1 := ⟨fuel - 1, by omega⟩
  obtain ⟨ha, hm, hp⟩ := cops_head_flags cops tail hok2 hstop
  have h1 : parse_comp g src (f + 1) (tchain_toks tc0 ++ (cops_toks cops ++ tail))
      = (do
          let (ret, toks) ← parse_term g src f
            (tchain_toks tc0 ++ (cops_toks cops ++ tail))
          parse_comp_go g src f ret toks) := rfl
  simp only [cchain_toks, List.append_assoc]
  rw [h1, parse_term_tchain g src tc0 f (cops_toks cops ++ tail) hok1
    (by omega) ha hm hp]
  exact parse_comp_go_chain g src cops f (tchain_expr tc0) tail hok2
    (by omega) hstop

/-! ### Claim theorems -/

/-- C3: every call to next_vn returns a value strictly greater than every
value returned by any earlier call: the call results are strictly monotone in
the call index, so no SSA value identifier is issued twice and the results
are totally ordered. -/
theorem next_vn_strict_mono (i j : Nat) (h : i < j) : vn_at i < vn_at j := by
  simp only [vn_at, next_vn, vn_state_eq]
  omega

theorem next_vn_strict_mono_witness : vn_at 0 < vn_at 2 :=
  next_vn_strict_mono 0 2 (by decide)

/-- C9 counterexample: the claim quantifies over every sequence of
mempool_alloc calls, but a single call requesting 2 ^ 64 - 1 bytes wraps the
size_t guard `size + amount + 1 >= alloc` to 0, so the pool does not grow:
the call succeeds, returning a region of 2 ^ 64 - 1 bytes at offset 0 while
only 4096 bytes are committed — the returned region's end exceeds the
committed prefix (POOL_CHUNK_SZ < offset + amount), refuting the claim as
stated. -/
theorem mempool_alloc_huge_escapes_committed :
    mempool_alloc mempool_init (2 ^ 64 - 1)
        = some (⟨2 ^ 64 - 1, POOL_CHUNK_SZ, true⟩, 0) ∧
      POOL_CHUNK_SZ < 0 + (2 ^ 64 - 1) := by
  constructor
  · rfl
  · decide

/-- C9 (amended: every requested amount is at most POOL_MAX_SZ, the pool's
own capacity cap, so that size_t arithmetic cannot wrap): the arena is
growth-only — each mempool_alloc call never decreases the used size or the
committed prefix and never unmaps anything, every returned region lies wholly
within the committed prefix, and for a whole run from mempool_init the
returned regions are pairwise disjoint, are never overlapped (hence never
moved or overwritten) by later allocations, and all lie inside the committed
prefix; the only deallocation is mempool_deinit's bulk unmap. -/
theorem mempool_arena_invariants :
    (∀ pool amount pool' off, pool_inv pool → amount ≤ POOL_MAX_SZ →
       mempool_alloc pool amount = some (pool', off) →
       pool.size ≤ pool'.size ∧ pool.alloc ≤ pool'.alloc ∧
         pool'.mapped = pool.mapped ∧ off + amount ≤ pool'.alloc) ∧
    (∀ amounts poolf regs, (∀ a ∈ amounts, a ≤ POOL_MAX_SZ) →
       mempool_run amounts = some (poolf, regs) →
       regions_ok poolf.alloc regs ∧ poolf.mapped = true ∧
         (mempool_deinit poolf).mapped = false ∧
         (mempool_deinit poolf).alloc = poolf.alloc) := by
  constructor
  · intro pool amount pool' off hinv hamt heq
    obtain ⟨h1, h2, h3, _, h5, _⟩ := mempool_alloc_step pool amount pool' off hinv hamt heq
    exact ⟨by omega, h2, h3, h5⟩
  · intro amounts poolf regs hamt heq
    obtain ⟨⟨_, _, hmap⟩, _, _, hrok, _⟩ :=
      mempool_run_from_ok amounts mempool_init poolf regs pool_inv_init hamt heq
    exact ⟨hrok, hmap, rfl, rfl⟩

theorem mempool_arena_invariants_witness :
    regions_ok 4096 [(0, 8), (8, 16)] ∧ (true : Bool) = true ∧
      (mempool_deinit ⟨24, 4096, true⟩).mapped = false ∧
      (mempool_deinit ⟨24, 4096, true⟩).alloc = 4096 := by
  have h := mempool_arena_invariants.2 [8, 16] ⟨24, 4096, true⟩ [(0, 8), (8, 16)]
    (by decide) (by rfl)
  exact h

/-- C10: vector_idx returns NULL (`none`) exactly when the index is at least
the vector's item count; otherwise it returns the address of element `idx`,
a region `[data + idx * it_sz, data + (idx + 1) * it_sz)` that lies entirely
inside the storage of the vector's `items` elements. -/
theorem vector_idx_total (vec : Vec) (idx : Nat) :
    (vector_idx vec idx = none ↔ vec.items ≤ idx) ∧
    (vec.items ≤ idx ∨
      (vector_idx vec idx = some (vec.data + idx * vec.it_sz) ∧
        vec.data ≤ vec.data + idx * vec.it_sz ∧
        vec.data + idx * vec.it_sz + vec.it_sz ≤ vec.data + vec.items * vec.it_sz)) := by
  constructor
  · unfold vector_idx
    split
    · rename_i h
      simp only [ge_iff_le] at h
      simp [h]
    · rename_i h
      simp only [ge_iff_le, not_le] at h
      simp
      omega
  · by_cases h : vec.items ≤ idx
    · exact Or.inl h
    · right
      push_neg at h
      refine ⟨by unfold vector_idx; simp [Nat.not_le_of_lt h], Nat.le_add_right _ _, ?_⟩
      have hmul : (idx + 1) * vec.it_sz ≤ vec.items * vec.it_sz :=
        Nat.mul_le_mul_right _ (by omega)
      calc vec.data + idx * vec.it_sz + vec.it_sz
          = vec.data + (idx + 1) * vec.it_sz := by ring
        _ ≤ vec.data + vec.items * vec.it_sz := by omega

theorem vector_idx_total_witness :
    (vector_idx ⟨4, 3, 32, 100⟩ 5 = none ↔ (3 : Nat) ≤ 5) ∧
    ((3 : Nat) ≤ 5 ∨
      (vector_idx ⟨4, 3, 32, 100⟩ 5 = some (100 + 5 * 4) ∧
        100 ≤ 100 + 5 * 4 ∧ 100 + 5 * 4 + 4 ≤ 100 + 3 * 4)) :=
  vector_idx_total ⟨4, 3, 32, 100⟩ 5

/-- C1: refuted by evaluation — the spec requires an integer literal suffixed
u8 whose value exceeds 255 to fail with the overflow diagnostic at the
literal's span, but on the token `300u8` make_intlit_expr raises no
diagnostic at all: pos_to_num's success test is inverted
(`if (!__builtin_add_overflow(...)) return 0;`), so it reports "no overflow"
as soon as the very first digit addition does not overflow uint64_t, and no
range check against the suffix-encoded type exists anywhere.  The code
accepts the literal, recording value 3 (the first digit). -/
theorem intlit_overflow_not_detected :
    make_intlit_expr src_300u8 ⟨0, 5⟩ .INTLIT_U8
      = .ok (.EXPR_INT ⟨0, 5⟩ 3 .INTLIT_U8) := rfl

/-- C2: refuted by evaluation — the claim says pos_to_num processes every
digit of the digit portion and reports success with the accumulated sum when
no addition overflows.  On the two-digit literal `12` (digit values 1 and 2)
the inverted overflow test makes the loop return success (C result 0)
immediately after the first addition, leaving the accumulator at 1: the
second digit is never processed, and the claimed accumulated sum would be
1 + 2 = 3. -/
theorem pos_to_num_first_digit_only :
    pos_to_num src_12 ⟨0, 2⟩ 0 = (0, 1) := rfl

/-- C4: operator precedence and associativity of the expression parser,
universally over operator chains: for EVERY expression over variable
operands — a comparison chain of additive chains of multiplicative chains,
of any lengths, with any mix of operators at each level and arbitrary
variable spans — parse_expr produces exactly the nested left-fold tree
cchain_expr: multiplicative chains (`* /`) are complete subtrees of additive
chains (`+ -`), which are complete subtrees of comparison chains
(`== != > < >= <=`) — comparison lowest, additive next, multiplicative
highest — and at every level the fold nests to the left, chained comparisons
included, so `a + b * c` parses as `a + (b * c)`, `a - b - c` and
`a * b / c` parse as `(a - b) - c` and `(a * b) / c`, and `a == b == c`
parses as the ordinary left-nested chain `(a == b) == c`. -/
theorem parse_expr_precedence_assoc (g : Option Buf) (src : Buf) :
    ∀ (c : CChain) (fuel : Nat) (tail : List Token),
      cchain_ok c → cchain_size c + 1 < fuel →
      chain_stop (lexer_peek tail).t = true →
      parse_expr g src fuel (cchain_toks c ++ tail)
        = .ok (cchain_expr c, tail) := by
  intro c fuel tail hok hfuel hstop
  obtain ⟨f, rfl⟩ : ∃ f, fuel = f + 1 := ⟨fuel - 1, by omega⟩
  have h1 : parse_expr g src (f + 1) (cchain_toks c ++ tail)
      = parse_comp g src f (cchain_toks c ++ tail) := rfl
  rw [h1]
  exact parse_comp_cchain g src c f tail hok (by omega) hstop

theorem parse_expr_precedence_assoc_witness :
    parse_expr none [] 32
        [sym_tok ⟨0, 1⟩, mk_tok .TOK_MUL, sym_tok ⟨2, 1⟩,
         mk_tok .TOK_DIV, sym_tok ⟨4, 1⟩]
      = .ok (.EXPR_BINOP ⟨0, 5⟩ .BINOP_DIV
          (.EXPR_BINOP ⟨0, 3⟩ .BINOP_MUL (.EXPR_VAR ⟨0, 1⟩) (.EXPR_VAR ⟨2, 1⟩))
          (.EXPR_VAR ⟨4, 1⟩), []) ∧
    parse_expr none [] 32
        [sym_tok ⟨0, 1⟩, mk_tok .TOK_DEQ, sym_tok ⟨2, 1⟩,
         mk_tok .TOK_DEQ, sym_tok ⟨4, 1⟩]
      = .ok (.EXPR_BINOP ⟨0, 5⟩ .BINOP_EQ
          (.EXPR_BINOP ⟨0, 3⟩ .BINOP_EQ (.EXPR_VAR ⟨0, 1⟩) (.EXPR_VAR ⟨2, 1⟩))
          (.EXPR_VAR ⟨4, 1⟩), []) ∧
    parse_expr none [] 32
        [sym_tok ⟨0, 1⟩, mk_tok .TOK_ADD, sym_tok ⟨2, 1⟩, mk_tok .TOK_DEQ,
         sym_tok ⟨4, 1⟩, mk_tok .TOK_MUL, sym_tok ⟨6, 1⟩]
      = .ok (.EXPR_BINOP ⟨0, 7⟩ .BINOP_EQ
          (.EXPR_BINOP ⟨0, 3⟩ .BINOP_ADD (.EXPR_VAR ⟨0, 1⟩) (.EXPR_VAR ⟨2, 1⟩))
          (.EXPR_BINOP ⟨4, 3⟩ .BINOP_MUL (.EXPR_VAR ⟨4, 1⟩) (.EXPR_VAR ⟨6, 1⟩)),
          []) := by
  refine ⟨?_, ?_, ?_⟩
  · exact parse_expr_precedence_assoc none []
      (((⟨0, 1⟩, [(.TOK_MUL, ⟨2, 1⟩), (.TOK_DIV, ⟨4, 1⟩)]), []), [])
      32 [] (by decide) (by decide) (by decide)
  · exact parse_expr_precedence_assoc none []
      (((⟨0, 1⟩, []), []), [(.TOK_DEQ, ((⟨2, 1⟩, []), [])), (.TOK_DEQ, ((⟨4, 1⟩, []), []))])
      32 [] (by decide) (by decide) (by decide)
  · exact parse_expr_precedence_assoc none []
      (((⟨0, 1⟩, []), [(.TOK_ADD, (⟨2, 1⟩, []))]),
        [(.TOK_DEQ, ((⟨4, 1⟩, [(.TOK_MUL, ⟨6, 1⟩)]), []))])
      32 [] (by decide) (by decide) (by decide)

/-- C5: the suffix table assigns 2 trailing characters to the u8/i8 tags, 3
to the 16/32/64-bit tags and 0 to the no-suffix default tag; every literal
Expr produced by make_intlit_expr records exactly the token's type tag and a
value converted from the span shortened by exactly the suffix length; and the
conversion outcome (the produced literal Expr, or the raising of the
overflow diagnostic — viewed through Except.toOption, since a raised
diagnostic also carries the buffer pointer itself as its rendering base)
never depends on the suffix bytes: two buffers agreeing on the first
sz - intlit_pos_sz t bytes of the token yield the same outcome (for the
no-suffix tag the whole token is the digit portion). -/
theorem intlit_suffix_sizes :
    (intlit_pos_sz .INTLIT_U8 = 2 ∧ intlit_pos_sz .INTLIT_I8 = 2 ∧
     intlit_pos_sz .INTLIT_U16 = 3 ∧ intlit_pos_sz .INTLIT_I16 = 3 ∧
     intlit_pos_sz .INTLIT_U32 = 3 ∧ intlit_pos_sz .INTLIT_I32 = 3 ∧
     intlit_pos_sz .INTLIT_U64 = 3 ∧ intlit_pos_sz .INTLIT_I64 = 3 ∧
     intlit_pos_sz .INTLIT_I64_NONE = 0) ∧
    (∀ src pos t e, make_intlit_expr src pos t = .ok e →
      e = .EXPR_INT pos
            (pos_to_num src ⟨pos.start, pos.sz - intlit_pos_sz t⟩ 0).2 t) ∧
    (∀ src srcB pos t,
      (∀ i, i < pos.sz - intlit_pos_sz t →
          src.getD (pos.start + i) 0 = srcB.getD (pos.start + i) 0) →
      (make_intlit_expr src pos t).toOption
        = (make_intlit_expr srcB pos t).toOption) := by
  refine ⟨⟨rfl, rfl, rfl, rfl, rfl, rfl, rfl, rfl, rfl⟩, ?_, ?_⟩
  · intro src pos t e h
    simp only [make_intlit_expr] at h
    split at h
    · exact absurd h (by simp)
    · simp only [Except.ok.injEq] at h
      exact h.symm
  · intro src srcB pos t h
    have hcg : pos_to_num src ⟨pos.start, pos.sz - intlit_pos_sz t⟩ 0
        = pos_to_num srcB ⟨pos.start, pos.sz - intlit_pos_sz t⟩ 0 := by
      unfold pos_to_num
      exact pos_to_num_go_congr src srcB pos.start (pos.sz - intlit_pos_sz t) 0 0
        (fun j hj1 hj2 => h j (by omega))
    by_cases hc : (pos_to_num srcB ⟨pos.start, pos.sz - intlit_pos_sz t⟩ 0).1 ≠ 0
    · simp [make_intlit_expr, hcg, hc, Except.toOption]
    · simp [make_intlit_expr, hcg, hc, Except.toOption]

theorem intlit_suffix_sizes_witness :
    Expr.EXPR_INT ⟨0, 5⟩ 3 .INTLIT_U8
        = .EXPR_INT ⟨0, 5⟩ (pos_to_num src_300u8 ⟨0, 3⟩ 0).2 .INTLIT_U8 ∧
      (make_intlit_expr src_300u8 ⟨0, 5⟩ .INTLIT_U8).toOption
        = (make_intlit_expr [51, 48, 48, 0, 0] ⟨0, 5⟩ .INTLIT_U8).toOption := by
  constructor
  · exact intlit_suffix_sizes.2.1 src_300u8 ⟨0, 5⟩ .INTLIT_U8
      (.EXPR_INT ⟨0, 5⟩ 3 .INTLIT_U8) rfl
  · exact intlit_suffix_sizes.2.2 src_300u8 [51, 48, 48, 0, 0] ⟨0, 5⟩ .INTLIT_U8
      (by decide)

/-- C6: refuted by evaluation — the claim says a parsing diagnostic renders
the source line from the very buffer the offending span points into, but
parse_ast assigns the file-scope global `src_base` only AFTER its parse
loop.  Compiling the source `(` (first compilation of the process, global
zero-initialised to NULL) makes parse_fn's `expect(TOK_SYM, "expected
function name")` fail on the first line, and the diagnostic it raises
carries base `none` (NULL), not `some lparen_src`: log_source_err's backward
line scan is not bounded by the buffer the span (start 0, length 1, inside
lparen_src) points into, and for this first-line error it would read memory
before the buffer. -/
theorem parse_ast_err_base_null :
    parse_ast none 16 [⟨.TOK_LPAREN, ⟨0, 1⟩, .INTLIT_I64_NONE⟩] lparen_src
      = (.error ⟨msg_expected_fn_name, none, ⟨0, 1⟩⟩, none) := rfl

/-- C7: parse_fn records return type void exactly when the token after the
parameter list's ')' is '{'; otherwise the recorded return type is the one
named by the annotation token (shown for every token parse_type accepts:
u8, u16, u32, u64, i8, i16, i32, i64, bool), and a non-type annotation token
is rejected by parse_type's diagnostic. -/
theorem parse_fn_ret_type_default (g : Option Buf) (src : Buf)
    (pn : SourcePosition) :
    parse_fn g src 16 [sym_tok pn, mk_tok .TOK_LPAREN, mk_tok .TOK_RPAREN,
        mk_tok .TOK_LCURLY, mk_tok .TOK_RCURLY]
      = .ok (⟨pn, pn, [], .void, ⟨[]⟩⟩, []) ∧
    parse_fn g src 16 [sym_tok pn, mk_tok .TOK_LPAREN, mk_tok .TOK_RPAREN,
        mk_tok .TOK_U8, mk_tok .TOK_LCURLY, mk_tok .TOK_RCURLY]
      = .ok (⟨pn, pn, [], .u8, ⟨[]⟩⟩, []) ∧
    parse_fn g src 16 [sym_tok pn, mk_tok .TOK_LPAREN, mk_tok .TOK_RPAREN,
        mk_tok .TOK_U16, mk_tok .TOK_LCURLY, mk_tok .TOK_RCURLY]
      = .ok (⟨pn, pn, [], .u16, ⟨[]⟩⟩, []) ∧
    parse_fn g src 16 [sym_tok pn, mk_tok .TOK_LPAREN, mk_tok .TOK_RPAREN,
        mk_tok .TOK_U32, mk_tok .TOK_LCURLY, mk_tok .TOK_RCURLY]
      = .ok (⟨pn, pn, [], .u32, ⟨[]⟩⟩, []) ∧
    parse_fn g src 16 [sym_tok pn, mk_tok .TOK_LPAREN, mk_tok .TOK_RPAREN,
        mk_tok .TOK_U64, mk_tok .TOK_LCURLY, mk_tok .TOK_RCURLY]
      = .ok (⟨pn, pn, [], .u64, ⟨[]⟩⟩, []) ∧
    parse_fn g src 16 [sym_tok pn, mk_tok .TOK_LPAREN, mk_tok .TOK_RPAREN,
        mk_tok .TOK_I8, mk_tok .TOK_LCURLY, mk_tok .TOK_RCURLY]
      = .ok (⟨pn, pn, [], .i8, ⟨[]⟩⟩, []) ∧
    parse_fn g src 16 [sym_tok pn, mk_tok .TOK_LPAREN, mk_tok .TOK_RPAREN,
        mk_tok .TOK_I16, mk_tok .TOK_LCURLY, mk_tok .TOK_RCURLY]
      = .ok (⟨pn, pn, [], .i16, ⟨[]⟩⟩, []) ∧
    parse_fn g src 16 [sym_tok pn, mk_tok .TOK_LPAREN, mk_tok .TOK_RPAREN,
        mk_tok .TOK_I32, mk_tok .TOK_LCURLY, mk_tok .TOK_RCURLY]
      = .ok (⟨pn, pn, [], .i32, ⟨[]⟩⟩, []) ∧
    parse_fn g src 16 [sym_tok pn, mk_tok .TOK_LPAREN, mk_tok .TOK_RPAREN,
        mk_tok .TOK_I64, mk_tok .TOK_LCURLY, mk_tok .TOK_RCURLY]
      = .ok (⟨pn, pn, [], .i64, ⟨[]⟩⟩, []) ∧
    parse_fn g src 16 [sym_tok pn, mk_tok .TOK_LPAREN, mk_tok .TOK_RPAREN,
        mk_tok .TOK_BOOL, mk_tok .TOK_LCURLY, mk_tok .TOK_RCURLY]
      = .ok (⟨pn, pn, [], .bool, ⟨[]⟩⟩, []) ∧
    parse_fn g src 16 [sym_tok pn, mk_tok .TOK_LPAREN, mk_tok .TOK_RPAREN,
        mk_tok .TOK_COMMA, mk_tok .TOK_LCURLY, mk_tok .TOK_RCURLY]
      = .error ⟨msg_expected_type_name, g, ⟨0, 0⟩⟩ :=
  ⟨rfl, rfl, rfl, rfl, rfl, rfl, rfl, rfl, rfl, rfl, rfl⟩

/-- C8 counterexample: the claim says the parser also accepts a let with
NEITHER a declared type nor an initializer; in fact `let x` followed
directly by a newline is rejected: parse_let raises "expected '=' or ':'"
at the newline token. -/
theorem parse_let_rejects_bare :
    parse_let none [] 16 false
        [mk_tok .TOK_LET, sym_tok ⟨4, 1⟩, ⟨.TOK_NEWLINE, ⟨5, 1⟩, .INTLIT_I64_NONE⟩]
      = .error ⟨msg_expected_eq_or_colon, none, ⟨5, 1⟩⟩ := rfl

/-- C8 (amended: the declared type and the initializer are each optional but
not both absent — the parser accepts initializer-only, declared-type-only,
and both, recording the absent component as absent, and rejects a let with
neither): shown for both mutability flags and arbitrary spans, with a
variable initializer. -/
theorem parse_let_optional_components (g : Option Buf) (src : Buf) (m : Bool)
    (kt : TokKind) (pk px py pn : SourcePosition) :
    parse_let g src 16 m
        [⟨kt, pk, .INTLIT_I64_NONE⟩, sym_tok px, mk_tok .TOK_EQ, sym_tok py,
         ⟨.TOK_NEWLINE, pn, .INTLIT_I64_NONE⟩]
      = .ok (.STMT_LET (combine_pos pk pn) px none
          (some (.EXPR_VAR py)) m, []) ∧
    parse_let g src 16 m
        [⟨kt, pk, .INTLIT_I64_NONE⟩, sym_tok px, mk_tok .TOK_COLON,
         mk_tok .TOK_I64, ⟨.TOK_NEWLINE, pn, .INTLIT_I64_NONE⟩]
      = .ok (.STMT_LET (combine_pos pk pn) px (some .i64) none m, []) ∧
    parse_let g src 16 m
        [⟨kt, pk, .INTLIT_I64_NONE⟩, sym_tok px, mk_tok .TOK_COLON,
         mk_tok .TOK_I64, mk_tok .TOK_EQ, sym_tok py,
         ⟨.TOK_NEWLINE, pn, .INTLIT_I64_NONE⟩]
      = .ok (.STMT_LET (combine_pos pk pn) px (some .i64)
          (some (.EXPR_VAR py)) m, []) :=
  ⟨rfl, rfl, rfl⟩

end BCC2
